import Mathlib

/-!
Shallow embedding of the process-management core of `src/xv6/proc.c`
(process table, lottery scheduler scan, sleep/wakeup, fork/exit/wait/kill,
clone/join thread extension, ticket lock).

Modelling conventions:
* The process table `ptable.proc[NPROC]` is a `List Proc` scanned in order;
  the table capacity is left abstract (any length).
* C pointers into the table (`p->parent`, sleep channels, `curproc`) are
  modelled as numeric addresses: slot `i` has address `addrOf i = i + 1`,
  and `0` is the null pointer (`p->parent = 0`, `p->chan = 0`).
* `uint` arithmetic is `Nat` taken `% 2^32` where the C code can wrap
  (the `clone` stack validation).
* Collaborators (kalloc, copyuvm, copyout, random_at_most, file and inode
  duplication, the raw context switch) are opaque: fallible ones are passed
  in as `Option`/`Bool` oracles; file-descriptor and inode effects live
  outside the modelled state.
* The table spinlock serialises every operation here, so each C function
  body is one atomic state transformation.
-/

namespace XV6

/-- `enum procstate` from proc.h, as used by proc.c. -/
inductive ProcState where
  | UNUSED
  | EMBRYO
  | SLEEPING
  | RUNNABLE
  | RUNNING
  | ZOMBIE
deriving DecidableEq, Repr

/-- The user-visible registers of `struct trapframe` that proc.c writes
(`eax`, `esp`, `ebp`, `eip`); the remaining saved registers are copied
wholesale and never inspected, so they are not modelled individually. -/
structure TrapFrame where
  eax : Nat := 0
  esp : Nat := 0
  ebp : Nat := 0
  eip : Nat := 0
deriving DecidableEq, Repr

/-- `struct proc`: one slot of the process table.  Field defaults are the
zero-initialised contents of the global `ptable`.  `parent`, `chan`,
`kstack`, `pgdir` and `threadstack` are pointer-valued in C and are held
as numeric addresses with `0` for null. -/
structure Proc where
  pid : Int := 0
  state : ProcState := ProcState.UNUSED
  tickets : Int := 0
  ticks : Int := 0
  parent : Nat := 0
  chan : Nat := 0
  killed : Bool := false
  kstack : Nat := 0
  pgdir : Nat := 0
  sz : Nat := 0
  name : String := ""
  tf : TrapFrame := {}
  threadstack : Nat := 0
deriving DecidableEq, Repr

/-- Address of table slot `i` (slot addresses are distinct and non-null). -/
def addrOf (i : Nat) : Nat := i + 1

/-- In-place update of table slot `i` (the C code mutates `ptable.proc[i]`). -/
def setAt : List Proc → Nat → (Proc → Proc) → List Proc
  | [], _, _ => []
  | p :: rest, 0, f => f p :: rest
  | p :: rest, n + 1, f => p :: setAt rest n f

/-- First index whose record satisfies `f`; the common `for(p = ptable.proc;
p < &ptable.proc[NPROC]; p++)` scan pattern of proc.c. -/
def findIdxP (f : Proc → Bool) : List Proc → Option Nat
  | [] => none
  | p :: rest => if f p then some 0 else (findIdxP f rest).map Nat.succ

/-- Body of `wakeup1`: a `SLEEPING` record on channel `c` becomes
`RUNNABLE`, anything else is untouched. -/
def wakeProc (c : Nat) (p : Proc) : Proc :=
  if p.state = ProcState.SLEEPING ∧ p.chan = c then
    { p with state := ProcState.RUNNABLE }
  else p

/-- `wakeup1(chan)`: scan the whole table and wake every process sleeping
on `chan` (caller holds the table lock). -/
def wakeup1 (c : Nat) (ps : List Proc) : List Proc :=
  ps.map (wakeProc c)

/-- `wakeup(chan)`: acquire the table lock, `wakeup1`, release.  The lock
serialises the call, so the state transformation is that of `wakeup1`. -/
def wakeup (c : Nat) (ps : List Proc) : List Proc :=
  wakeup1 c ps

/-- Mutation of the record found by `kill`: set `killed`, and force a
`SLEEPING` record `RUNNABLE`. -/
def killKick (p : Proc) : Proc :=
  { p with
      killed := true,
      state := if p.state = ProcState.SLEEPING then ProcState.RUNNABLE else p.state }

/-- `kill(pid)`: find the first record whose `pid` field matches, set its
`killed` flag, wake it if sleeping and return `0`; return `-1` if no
record matches.  The scan tests only `p->pid == pid`, never `p->state`. -/
def kill (pid : Int) (ps : List Proc) : Int × List Proc :=
  match findIdxP (fun p => decide (p.pid = pid)) ps with
  | some i => (0, setAt ps i killKick)
  | none => (-1, ps)

/-- `settickets(n)` for the caller occupying slot `caller`: reject `n < 1`,
otherwise store `n` in the caller's `tickets` field. -/
def settickets (caller : Nat) (n : Int) (ps : List Proc) : Int × List Proc :=
  if n < 1 then (-1, ps)
  else (0, setAt ps caller (fun p => { p with tickets := n }))

/-- One row of `struct pstat` as filled in by `getpinfo`. -/
structure PstatEntry where
  pid : Int
  inuse : Bool
  tickets : Int
  ticks : Int
deriving DecidableEq, Repr

/-- `getpinfo`: per-slot statistics (pid, in-use flag, tickets, ticks). -/
def getpinfo (ps : List Proc) : List PstatEntry :=
  ps.map (fun p => ⟨p.pid, decide (p.state ≠ ProcState.UNUSED), p.tickets, p.ticks⟩)

/-- `tickets_sum()`: running total of `tickets` over the `RUNNABLE`
records, accumulated in table order exactly as the C loop does. -/
def tickets_sum (ps : List Proc) : Int :=
  ps.foldl (fun acc p => if p.state = ProcState.RUNNABLE then acc + p.tickets else acc) 0

/-- The selection scan of `scheduler()` with the running `counter`
threaded through: skip non-`RUNNABLE` records; add `tickets` to the
counter; `continue` while `counter < winner`; otherwise dispatch this
record.  Returns the index of the dispatched record, if any. -/
def schedScan : List Proc → Int → Int → Option Nat
  | [], _, _ => none
  | p :: rest, winner, counter =>
    if p.state = ProcState.RUNNABLE then
      if counter + p.tickets < winner then
        (schedScan rest winner (counter + p.tickets)).map Nat.succ
      else some 0
    else (schedScan rest winner counter).map Nat.succ

/-- One scheduler pass after `winner = random_at_most(tickets_sum())`:
the record the pass switches into, if any. -/
def schedSelect (ps : List Proc) (winner : Int) : Option Nat :=
  schedScan ps winner 0

/-- Cumulative ticket sum over the `Runnable` records among slots
`0..i` (the value the scheduler's `counter` holds just after adding
slot `i`'s tickets). -/
def runnableCum (ps : List Proc) (i : Nat) : Int :=
  tickets_sum (ps.take (i + 1))

/-- `2^32`: modulus of the 32-bit `uint` arithmetic of the x86 target. -/
def UINT_MOD : Nat := 4294967296

/-- `PGSIZE` from mmu.h. -/
def PGSIZE : Nat := 4096

/-- Result of `allocproc`: index of the new `EMBRYO` record (`none` on
failure), the advanced `nextpid`, and the table after the call. -/
structure AllocOut where
  idx : Option Nat
  nextpid : Int
  table : List Proc
deriving DecidableEq, Repr

/-- `allocproc()`: find an `UNUSED` slot, mark it `EMBRYO`, assign the
next pid, one ticket and zero ticks; then allocate the kernel stack
(collaborator `kalloc`, passed as an oracle).  On kalloc failure the
state is rolled back to `UNUSED` (the pid assignment is not undone).
The trap-frame/context layout carved out of the stack page is machine
level and is kept at the handle level here. -/
def allocproc (kalloc : Option Nat) (nextpid : Int) (ps : List Proc) : AllocOut :=
  match findIdxP (fun p => decide (p.state = ProcState.UNUSED)) ps with
  | none => ⟨none, nextpid, ps⟩
  | some i =>
    let ps1 := setAt ps i (fun p =>
      { p with state := ProcState.EMBRYO, pid := nextpid, tickets := 1, ticks := 0 })
    match kalloc with
    | none => ⟨none, nextpid + 1, setAt ps1 i (fun p => { p with state := ProcState.UNUSED })⟩
    | some k => ⟨some i, nextpid + 1, setAt ps1 i (fun p => { p with kstack := k })⟩

/-- Result of `fork`/`clone`: return value, advanced `nextpid`, the table
after the call, and the kernel-stack handles passed to `kfree` on the way
(so that "frees the partially acquired stack" is observable). -/
structure CloneOut where
  ret : Int
  nextpid : Int
  table : List Proc
  freedK : List Nat
deriving DecidableEq, Repr

/-- `fork()` by the process in slot `caller`.  `kalloc` and `copyuvm` are
the two fallible collaborators.  On `copyuvm` failure the child's kernel
stack is freed and the slot returned to `UNUSED`.  File/inode duplication
acts on state outside this model. -/
def fork (kalloc : Option Nat) (copyuvm : Option Nat) (caller : Nat) (nextpid : Int)
    (ps : List Proc) : Option CloneOut :=
  match ps[caller]? with
  | none => none
  | some cp =>
    let a := allocproc kalloc nextpid ps
    match a.idx with
    | none => some ⟨-1, a.nextpid, a.table, []⟩
    | some ni =>
      match copyuvm with
      | none =>
        let k := ((a.table[ni]?).map Proc.kstack).getD 0
        some ⟨-1, a.nextpid,
          setAt a.table ni (fun np => { np with kstack := 0, state := ProcState.UNUSED }), [k]⟩
      | some pg =>
        some ⟨nextpid, a.nextpid,
          setAt a.table ni (fun np =>
            { np with
                pgdir := pg, tickets := cp.tickets, sz := cp.sz,
                parent := addrOf caller, tf := { cp.tf with eax := 0 },
                name := cp.name, state := ProcState.RUNNABLE }), []⟩

/-- `clone(fcn, arg1, arg2, stack)` by the process in slot `caller`.
Validates the stack (page aligned, `sz < PGSIZE + stack` in wrapping
32-bit arithmetic rejects), allocates a record sharing the caller's
`pgdir` and `sz`, copies the trap frame, and (collaborator `copyout`)
writes the fake return frame `[0xffffffff, arg1, arg2]` at
`stack + PGSIZE - 12` in user memory, which lives outside the modelled
state; `copyoutOk` is that collaborator's outcome.  On copyout failure
the C code returns `-1` immediately: the new record stays `EMBRYO` and
its kernel stack is not freed. -/
def clone (fcn arg1 arg2 stack : Nat) (kalloc : Option Nat) (copyoutOk : Bool)
    (caller : Nat) (nextpid : Int) (ps : List Proc) : Option CloneOut :=
  match ps[caller]? with
  | none => none
  | some cp =>
    if stack % PGSIZE ≠ 0 then some ⟨-1, nextpid, ps, []⟩
    else if cp.sz < (PGSIZE + stack) % UINT_MOD then some ⟨-1, nextpid, ps, []⟩
    else
      let a := allocproc kalloc nextpid ps
      match a.idx with
      | none => some ⟨-1, a.nextpid, a.table, []⟩
      | some ni =>
        -- np->pgdir / np->sz / np->parent / *np->tf = ... (before copyout)
        let ps1 := setAt a.table ni (fun np =>
          { np with pgdir := cp.pgdir, sz := cp.sz, parent := addrOf caller, tf := cp.tf })
        let stack_top := (stack + PGSIZE - 12) % UINT_MOD
        if copyoutOk = false then some ⟨-1, a.nextpid, ps1, []⟩
        else
          -- trap-frame targets, threadstack, name, files/cwd dup, RUNNABLE
          let ps2 := setAt ps1 ni (fun np =>
            { np with
                tf := { np.tf with esp := stack_top, ebp := stack_top, eip := fcn, eax := 0 },
                threadstack := stack, name := cp.name, state := ProcState.RUNNABLE })
          some ⟨((ps2[ni]?).map Proc.pid).getD 0, a.nextpid, ps2, []⟩

/-- Result of one non-blocking pass of `wait()`: the reap (returned pid,
table afterwards, kernel stacks given to `kfree`, page directories given
to `freevm`), the `-1` "no children" return, or the `sleep`-and-retry
branch. -/
inductive WaitRes where
  | reaped (pid : Int) (table : List Proc) (freedK : List Nat) (freedVm : List Nat)
  | nokids
  | blocks
deriving DecidableEq, Repr

/-- The field resets `wait` performs on a reaped zombie (`kstack`, `pid`,
`parent`, `name[0]`, `killed`, `state`); `pgdir` is freed but the field
itself is not cleared. -/
def reapWait (p : Proc) : Proc :=
  { p with
      kstack := 0, pid := 0, parent := 0, name := "", killed := false,
      state := ProcState.UNUSED }

/-- `p->parent == curproc` for the caller in slot `caller`. -/
def isChildOf (caller : Nat) (p : Proc) : Bool :=
  decide (p.parent = addrOf caller)

/-- One pass of `wait()` by the process in slot `caller` (the enclosing
`for(;;)` re-runs the pass after `sleep`; `blocks` is that branch). -/
def wait1 (caller : Nat) (ps : List Proc) : WaitRes :=
  match ps[caller]? with
  | none => WaitRes.blocks
  | some cp =>
    match findIdxP (fun p => isChildOf caller p && decide (p.state = ProcState.ZOMBIE)) ps with
    | some i =>
      match ps[i]? with
      | some p => WaitRes.reaped p.pid (setAt ps i reapWait) [p.kstack] [p.pgdir]
      | none => WaitRes.blocks
    | none =>
      if ps.any (isChildOf caller) = false ∨ cp.killed then WaitRes.nokids
      else WaitRes.blocks

/-- Result of one non-blocking pass of `join(&stack)`.  `outCell` is the
contents of the caller-supplied `void **stack` cell after the call;
`stackVar` is the final value of the local parameter variable `stack`
inside `join` (the C code assigns `stack = p->threadstack;` to the local,
it never stores through the pointer). -/
inductive JoinRes where
  | reaped (pid : Int) (table : List Proc) (freedK : List Nat) (freedVm : List Nat)
      (outCell : Nat) (stackVar : Nat)
  | nothreads
  | blocks
deriving DecidableEq, Repr

/-- The field resets `join` performs on a reaped zombie thread: like
`wait` plus `threadstack := 0`, but `freevm` is never called and `pgdir`
is untouched (it is shared with the caller). -/
def reapJoin (p : Proc) : Proc :=
  { p with
      kstack := 0, pid := 0, parent := 0, name := "", killed := false,
      state := ProcState.UNUSED, threadstack := 0 }

/-- The qualification test of `join`'s scan: the negation of
`p->parent != curproc || p->pgdir != p->parent->pgdir` (when the first
disjunct fails, `p->parent` is the caller, so `p->parent->pgdir` is the
caller's `pgdir`). -/
def isThreadOf (caller : Nat) (cp : Proc) (p : Proc) : Bool :=
  decide (p.parent = addrOf caller) && decide (p.pgdir = cp.pgdir)

/-- One pass of `join(&stack)` by the process in slot `caller`, with
`outCell` the initial contents of the caller's `void **stack` cell. -/
def join1 (caller : Nat) (outCell : Nat) (ps : List Proc) : JoinRes :=
  match ps[caller]? with
  | none => JoinRes.blocks
  | some cp =>
    match findIdxP (fun p => isThreadOf caller cp p && decide (p.state = ProcState.ZOMBIE)) ps with
    | some i =>
      match ps[i]? with
      | some p =>
        -- kfree(p->kstack); field resets; stack = p->threadstack (local
        -- assignment only: outCell is returned unchanged); return pid.
        JoinRes.reaped p.pid (setAt ps i reapJoin) [p.kstack] [] outCell p.threadstack
      | none => JoinRes.blocks
    | none =>
      if ps.any (isThreadOf caller cp) = false ∨ cp.killed then JoinRes.nothreads
      else JoinRes.blocks

/-- One iteration of `exit`'s re-parenting loop at table index `i`: if
the record's parent is the caller (`cA`), re-parent it to the root
(`iA`), and if it is already a `ZOMBIE`, `wakeup1(initproc)`. -/
def reparentStep (cA iA : Nat) (ps : List Proc) (i : Nat) : List Proc :=
  match ps[i]? with
  | none => ps
  | some p =>
    if p.parent = cA then
      let ps1 := setAt ps i (fun q => { q with parent := iA })
      if p.state = ProcState.ZOMBIE then wakeup1 iA ps1 else ps1
    else ps

/-- `exit`'s re-parenting loop over a list of table indices. -/
def reparentList (cA iA : Nat) : List Nat → List Proc → List Proc
  | [], ps => ps
  | i :: rest, ps => reparentList cA iA rest (reparentStep cA iA ps i)

/-- Does some record have parent `cA` and state `ZOMBIE`? -/
def zombieChild (cA : Nat) (ps : List Proc) : Bool :=
  ps.any (fun p => decide (p.parent = cA ∧ p.state = ProcState.ZOMBIE))

/-- "Is a zombie child of `cA`" on an optional record. -/
def zpred (cA : Nat) (o : Option Proc) : Bool :=
  match o with
  | some p => decide (p.parent = cA ∧ p.state = ProcState.ZOMBIE)
  | none => false

/-- `zombieChild` restricted to the table indices in `idxs`. -/
def zombieChildOn (cA : Nat) (idxs : List Nat) (ps : List Proc) : Bool :=
  idxs.any (fun j => zpred cA ps[j]?)

/-- Net per-record effect of `exit`'s re-parenting loop when the loop
visits the indices of a set (`inSet` says whether this record's index is
visited): re-parent (when visited and a child of `cA`), then, if the
loop saw any zombie child (`zk`), the effect of `wakeup1 iA`. -/
def reparentSpec (cA iA : Nat) (zk : Bool) (inSet : Bool) (p : Proc) : Proc :=
  let p1 := cond inSet (if p.parent = cA then { p with parent := iA } else p) p
  cond zk (wakeProc iA p1) p1

/-- Net per-record effect of the whole of `exit` on a record other than
the caller: `wakeup1(curproc->parent)` (channel `pA`), then re-parenting
to `iA`, then `wakeup1(initproc)` if some child of the caller was a
zombie. -/
def exitXform (cA iA pA : Nat) (zk : Bool) (p : Proc) : Proc :=
  reparentSpec cA iA zk true (wakeProc pA p)

/-- `exit()` by the process in slot `caller`, with the root record in
slot `init`: `none` models the `panic("init exiting")` abort (and an
invalid caller slot).  File closing and `iput(cwd)` act on collaborator
state outside this model.  After the final `ZOMBIE` store the C code
calls `sched()` and never returns. -/
def exit1 (caller init : Nat) (ps : List Proc) : Option (List Proc) :=
  if caller = init then none
  else
    match ps[caller]? with
    | none => none
    | some cp =>
      let ps1 := wakeup1 cp.parent ps
      let ps2 := reparentList (addrOf caller) (addrOf init) (List.range ps1.length) ps1
      some (setAt ps2 caller (fun q => { q with state := ProcState.ZOMBIE }))

/-- Events of the ticket-lock transition system: a thread atomically
draws `next_ticket` (`fetch_and_add` in `acquire_t`), a thread whose
drawn ticket equals `current_turn` leaves the `while`/`ticket_sleep`
loop and enters its critical section, and `release_t` performs
`fetch_and_add(&current_turn, 1)` plus a broadcast `wakeup`. -/
inductive TlEvent where
  | draw (tid : Nat)
  | enter (tid : Nat)
  | rel
deriving DecidableEq, Repr

/-- Ticket lookup in the drawn-tickets association list. -/
def tlLookup (tid : Nat) : List (Nat × Nat) → Option Nat
  | [] => none
  | (a, b) :: rest => if a = tid then some b else tlLookup tid rest

/-- `struct ticketlock` (`next_ticket`, `current_turn`) together with the
tickets drawn so far, per thread id. -/
structure TlState where
  next_ticket : Nat
  current_turn : Nat
  tick : List (Nat × Nat)
deriving DecidableEq, Repr

/-- `initlock_t`: both counters start at zero, nothing drawn. -/
def tlInit : TlState := ⟨0, 0, []⟩

/-- Guarded small-step semantics of the ticket lock.  `draw` is the
`fetch_and_add(&lk->next_ticket, 1)` of `acquire_t` (each thread runs
`acquire_t` once per acquisition; a fresh acquisition is a fresh thread
id here); `enter` is enabled exactly when `current_turn` equals the
thread's drawn ticket (the exit condition of the wait loop); `rel` is
`release_t`. -/
def tlStep : TlState → TlEvent → Option TlState
  | s, TlEvent.draw tid =>
    match tlLookup tid s.tick with
    | some _ => none
    | none => some ⟨s.next_ticket + 1, s.current_turn, (tid, s.next_ticket) :: s.tick⟩
  | s, TlEvent.enter tid =>
    match tlLookup tid s.tick with
    | some t => if s.current_turn = t then some s else none
    | none => none
  | s, TlEvent.rel => some ⟨s.next_ticket, s.current_turn + 1, s.tick⟩

/-- Run a trace of ticket-lock events from a state; `none` if some event
is not enabled. -/
def tlRun : TlState → List TlEvent → Option TlState
  | s, [] => some s
  | s, e :: es =>
    match tlStep s e with
    | some s1 => tlRun s1 es
    | none => none

/-! ### Basic lemmas about the table representation -/

theorem length_setAt (f : Proc → Proc) :
    ∀ (ps : List Proc) (i : Nat), (setAt ps i f).length = ps.length := by
  intro ps
  induction ps with
  | nil => intro i; rfl
  | cons p rest ih =>
    intro i
    cases i with
    | zero => rfl
    | succ n => simpa [setAt] using ih n

theorem getq_setAt_self (f : Proc → Proc) :
    ∀ (ps : List Proc) (i : Nat), (setAt ps i f)[i]? = (ps[i]?).map f := by
  intro ps
  induction ps with
  | nil => intro i; simp [setAt]
  | cons p rest ih =>
    intro i
    cases i with
    | zero => simp [setAt]
    | succ n => simpa [setAt] using ih n

theorem getq_setAt_ne (f : Proc → Proc) :
    ∀ (ps : List Proc) (i j : Nat), j ≠ i → (setAt ps i f)[j]? = ps[j]? := by
  intro ps
  induction ps with
  | nil => intro i j _; simp [setAt]
  | cons p rest ih =>
    intro i j hne
    cases i with
    | zero =>
      cases j with
      | zero => exact absurd rfl hne
      | succ m => simp [setAt]
    | succ n =>
      cases j with
      | zero => simp [setAt]
      | succ m =>
        have hmn : m ≠ n := fun h => hne (by simp [h])
        simpa [setAt] using ih n m hmn

theorem getq_wakeup1 (c : Nat) (ps : List Proc) (i : Nat) :
    (wakeup1 c ps)[i]? = (ps[i]?).map (wakeProc c) :=
  List.getElem?_map ..

theorem length_wakeup1 (c : Nat) (ps : List Proc) :
    (wakeup1 c ps).length = ps.length :=
  List.length_map ..

theorem any_false_iff (f : Proc → Bool) :
    ∀ ps : List Proc,
      ps.any f = false ↔ ∀ (j : Nat) (q : Proc), ps[j]? = some q → f q = false := by
  intro ps
  induction ps with
  | nil => simp
  | cons p rest ih =>
    constructor
    · intro h j q hj
      rw [List.any_cons, Bool.or_eq_false_iff] at h
      cases j with
      | zero =>
        simp only [List.getElem?_cons_zero, Option.some_inj] at hj
        exact hj ▸ h.1
      | succ m =>
        exact (ih.1 h.2) m q (by simpa using hj)
    · intro h
      rw [List.any_cons, Bool.or_eq_false_iff]
      refine ⟨h 0 p (by simp), ih.2 ?_⟩
      intro j q hj
      exact h (j + 1) q (by simpa using hj)

/-! ### Lemmas about the first-match table scan -/

theorem findIdxP_some (f : Proc → Bool) :
    ∀ (ps : List Proc) (i : Nat), findIdxP f ps = some i →
      ∃ p, ps[i]? = some p ∧ f p = true ∧
        ∀ (j : Nat), j < i → ∀ (q : Proc), ps[j]? = some q → f q = false := by
  intro ps
  induction ps with
  | nil => intro i h; simp [findIdxP] at h
  | cons p rest ih =>
    intro i h
    by_cases hf : f p = true
    · simp [findIdxP, hf] at h
      subst h
      exact ⟨p, by simp, hf, fun j hj => absurd hj (Nat.not_lt_zero j)⟩
    · have hf' : f p = false := by revert hf; cases f p <;> simp
      simp [findIdxP, hf'] at h
      obtain ⟨i1, hi1, rfl⟩ := h
      obtain ⟨q, hq, hfq, hearlier⟩ := ih i1 hi1
      refine ⟨q, by simpa using hq, hfq, ?_⟩
      intro j hj r hr
      cases j with
      | zero =>
        simp only [List.getElem?_cons_zero, Option.some_inj] at hr
        subst hr
        exact hf'
      | succ m =>
        exact hearlier m (by omega) r (by simpa using hr)

theorem findIdxP_none (f : Proc → Bool) :
    ∀ ps : List Proc, findIdxP f ps = none →
      ∀ (j : Nat) (q : Proc), ps[j]? = some q → f q = false := by
  intro ps
  induction ps with
  | nil => intro _ j q hq; simp at hq
  | cons p rest ih =>
    intro h j q hq
    by_cases hf : f p = true
    · simp [findIdxP, hf] at h
    · have hf' : f p = false := by revert hf; cases f p <;> simp
      simp [findIdxP, hf'] at h
      cases j with
      | zero =>
        simp only [List.getElem?_cons_zero, Option.some_inj] at hq
        subst hq
        exact hf'
      | succ m =>
        exact ih h m q (by simpa using hq)

theorem findIdxP_first (f : Proc → Bool) :
    ∀ (ps : List Proc) (i : Nat) (p : Proc), ps[i]? = some p → f p = true →
      (∀ (j : Nat), j < i → ∀ (q : Proc), ps[j]? = some q → f q = false) →
      findIdxP f ps = some i := by
  intro ps
  induction ps with
  | nil => intro i p hp; simp at hp
  | cons r rest ih =>
    intro i p hp hf hearlier
    cases i with
    | zero =>
      simp only [List.getElem?_cons_zero, Option.some_inj] at hp
      subst hp
      simp [findIdxP, hf]
    | succ m =>
      have hr : f r = false := hearlier 0 (Nat.succ_pos m) r (by simp)
      have hrest : findIdxP f rest = some m := by
        refine ih m p (by simpa using hp) hf ?_
        intro j hj q hq
        exact hearlier (j + 1) (by omega) q (by simpa using hq)
      simp [findIdxP, hr, hrest]

/-! ### Claim C8: wakeup is a broadcast -/

/-- Claim C8: for every call to `wakeup(channel)`, every record whose
state is `Sleeping` and whose `channel` field equals the argument is
transitioned to `Runnable` (all matching sleepers, not just one), and
every record not matching both conditions is left unchanged. -/
theorem wakeup_broadcast (c : Nat) (ps : List Proc) (i : Nat) (p : Proc)
    (hp : ps[i]? = some p) :
    (p.state = ProcState.SLEEPING ∧ p.chan = c →
      (wakeup c ps)[i]? = some { p with state := ProcState.RUNNABLE }) ∧
    (¬(p.state = ProcState.SLEEPING ∧ p.chan = c) →
      (wakeup c ps)[i]? = some p) := by
  constructor
  · intro h
    rw [wakeup, getq_wakeup1, hp, Option.map_some']
    rw [wakeProc, if_pos h]
  · intro h
    rw [wakeup, getq_wakeup1, hp, Option.map_some']
    rw [wakeProc, if_neg h]

/-- Witness for C8 on a concrete three-record table: both sleepers on
channel 5 wake, the sleeper on channel 6 and the runnable record are
untouched. -/
theorem wakeup_broadcast_witness :
    (wakeup 5 [{ state := ProcState.SLEEPING, chan := 5 },
               { state := ProcState.SLEEPING, chan := 6 },
               { state := ProcState.RUNNABLE, chan := 5 },
               { state := ProcState.SLEEPING, chan := 5 }])[0]? =
        some { state := ProcState.RUNNABLE, chan := 5 } ∧
    (wakeup 5 [{ state := ProcState.SLEEPING, chan := 5 },
               { state := ProcState.SLEEPING, chan := 6 },
               { state := ProcState.RUNNABLE, chan := 5 },
               { state := ProcState.SLEEPING, chan := 5 }])[3]? =
        some { state := ProcState.RUNNABLE, chan := 5 } ∧
    (wakeup 5 [{ state := ProcState.SLEEPING, chan := 5 },
               { state := ProcState.SLEEPING, chan := 6 },
               { state := ProcState.RUNNABLE, chan := 5 },
               { state := ProcState.SLEEPING, chan := 5 }])[1]? =
        some { state := ProcState.SLEEPING, chan := 6 } := by
  refine ⟨?_, ?_, ?_⟩
  · exact (wakeup_broadcast 5
      [{ state := ProcState.SLEEPING, chan := 5 },
       { state := ProcState.SLEEPING, chan := 6 },
       { state := ProcState.RUNNABLE, chan := 5 },
       { state := ProcState.SLEEPING, chan := 5 }] 0
      { state := ProcState.SLEEPING, chan := 5 } (by simp)).1 ⟨rfl, rfl⟩
  · exact (wakeup_broadcast 5
      [{ state := ProcState.SLEEPING, chan := 5 },
       { state := ProcState.SLEEPING, chan := 6 },
       { state := ProcState.RUNNABLE, chan := 5 },
       { state := ProcState.SLEEPING, chan := 5 }] 3
      { state := ProcState.SLEEPING, chan := 5 } (by simp)).1 ⟨rfl, rfl⟩
  · exact (wakeup_broadcast 5
      [{ state := ProcState.SLEEPING, chan := 5 },
       { state := ProcState.SLEEPING, chan := 6 },
       { state := ProcState.RUNNABLE, chan := 5 },
       { state := ProcState.SLEEPING, chan := 5 }] 1
      { state := ProcState.SLEEPING, chan := 6 } (by simp)).2 (by simp)

/-! ### Claim C6: kill -/

/-- Claim C6: `kill(pid)` with a matching record sets that record's
`killed` flag, forces it `Runnable` exactly when it was `Sleeping`
(all other fields and all other records unchanged), and returns `0`;
with no matching record it returns `-1` and mutates nothing. -/
theorem kill_sets_flag_or_fails (pid : Int) (ps : List Proc) :
    (∀ (i : Nat) (p : Proc), ps[i]? = some p → p.pid = pid →
      (∀ (j : Nat), j < i → ∀ (q : Proc), ps[j]? = some q → q.pid ≠ pid) →
      (kill pid ps).1 = 0 ∧
      (kill pid ps).2[i]? = some { p with
          killed := true,
          state := if p.state = ProcState.SLEEPING then ProcState.RUNNABLE
                   else p.state } ∧
      (∀ (j : Nat), j ≠ i → (kill pid ps).2[j]? = ps[j]?)) ∧
    ((∀ (j : Nat) (q : Proc), ps[j]? = some q → q.pid ≠ pid) →
      kill pid ps = (-1, ps)) := by
  constructor
  · intro i p hp hpid hearlier
    have hfind : findIdxP (fun p => decide (p.pid = pid)) ps = some i := by
      refine findIdxP_first _ ps i p hp (by simp [hpid]) ?_
      intro j hj q hq
      simp [hearlier j hj q hq]
    refine ⟨by simp [kill, hfind], ?_, ?_⟩
    · rw [kill, hfind]
      simp only
      rw [getq_setAt_self, hp, Option.map_some']
      rfl
    · intro j hji
      rw [kill, hfind]
      simp only
      exact getq_setAt_ne _ ps i j hji
  · intro h
    cases hfind : findIdxP (fun p => decide (p.pid = pid)) ps with
    | some i =>
      obtain ⟨p, hp, hfp, _⟩ := findIdxP_some _ ps i hfind
      have : p.pid = pid := by simpa using hfp
      exact absurd this (h i p hp)
    | none => simp [kill, hfind]

/-- Witness for C6 on a concrete table: killing pid 3 wakes the sleeping
record and returns 0; killing an absent pid returns -1 unchanged. -/
theorem kill_sets_flag_or_fails_witness :
    (kill 3 [{ pid := 3, state := ProcState.SLEEPING, chan := 2 },
             { pid := 5, state := ProcState.RUNNING }]).1 = 0 ∧
    (kill 3 [{ pid := 3, state := ProcState.SLEEPING, chan := 2 },
             { pid := 5, state := ProcState.RUNNING }]).2[0]? =
      some { pid := 3, state := ProcState.RUNNABLE, chan := 2, killed := true } ∧
    kill 9 [{ pid := 3, state := ProcState.SLEEPING, chan := 2 },
            { pid := 5, state := ProcState.RUNNING }] =
      (-1, [{ pid := 3, state := ProcState.SLEEPING, chan := 2 },
            { pid := 5, state := ProcState.RUNNING }]) := by
  have h1 := (kill_sets_flag_or_fails 3
    [{ pid := 3, state := ProcState.SLEEPING, chan := 2 },
     { pid := 5, state := ProcState.RUNNING }]).1 0
    { pid := 3, state := ProcState.SLEEPING, chan := 2 } (by simp) rfl
    (by intro j hj; exact absurd hj (Nat.not_lt_zero j))
  have h2 := (kill_sets_flag_or_fails 9
    [{ pid := 3, state := ProcState.SLEEPING, chan := 2 },
     { pid := 5, state := ProcState.RUNNING }]).2
    (by intro j q hq
        cases j with
        | zero =>
          simp only [List.getElem?_cons_zero, Option.some_inj] at hq
          subst hq; decide
        | succ m =>
          cases m with
          | zero =>
            simp only [List.getElem?_cons_succ, List.getElem?_cons_zero,
              Option.some_inj] at hq
            subst hq; decide
          | succ k => simp at hq)
  exact ⟨h1.1, by rw [h1.2.1]; decide, h2⟩

/-! ### Claim C10: kill matches by pid only, so kill(0) hits Unused slots -/

/-- Claim C10: the `kill` scan matches the first record whose `pid`
field equals the argument regardless of that record's state, so
`kill(0)` on a table whose first pid-0 record is an `Unused` slot sets
the `killed` flag on that `Unused` record (its state stays `Unused`)
and returns success `0` rather than failure. -/
theorem kill_pid_zero_unused (ps : List Proc) :
    (∀ (pid : Int) (i : Nat) (p : Proc), ps[i]? = some p → p.pid = pid →
       (∀ (j : Nat), j < i → ∀ (q : Proc), ps[j]? = some q → q.pid ≠ pid) →
       (kill pid ps).1 = 0) ∧
    (∀ (i : Nat) (p : Proc), ps[i]? = some p → p.pid = 0 →
       p.state = ProcState.UNUSED →
       (∀ (j : Nat), j < i → ∀ (q : Proc), ps[j]? = some q → q.pid ≠ 0) →
       (kill 0 ps).1 = 0 ∧
       (kill 0 ps).2[i]? = some { p with killed := true }) := by
  have base : ∀ (pid : Int) (i : Nat) (p : Proc), ps[i]? = some p → p.pid = pid →
      (∀ (j : Nat), j < i → ∀ (q : Proc), ps[j]? = some q → q.pid ≠ pid) →
      findIdxP (fun p => decide (p.pid = pid)) ps = some i := by
    intro pid i p hp hpid hearlier
    refine findIdxP_first _ ps i p hp (by simp [hpid]) ?_
    intro j hj q hq
    simp [hearlier j hj q hq]
  constructor
  · intro pid i p hp hpid hearlier
    simp [kill, base pid i p hp hpid hearlier]
  · intro i p hp hpid hstate hearlier
    have hfind := base 0 i p hp hpid hearlier
    refine ⟨by simp [kill, hfind], ?_⟩
    rw [kill, hfind]
    simp only
    rw [getq_setAt_self, hp, Option.map_some']
    rw [killKick, hstate]
    simp

/-- Witness for C10: a table whose slot 1 is a reclaimed (`Unused`,
pid 0) slot; `kill 0` flags it and reports success. -/
theorem kill_pid_zero_unused_witness :
    (kill 0 [{ pid := 7, state := ProcState.RUNNING },
             { pid := 0, state := ProcState.UNUSED },
             { pid := 0, state := ProcState.UNUSED }]).1 = 0 ∧
    (kill 0 [{ pid := 7, state := ProcState.RUNNING },
             { pid := 0, state := ProcState.UNUSED },
             { pid := 0, state := ProcState.UNUSED }]).2[1]? =
      some { pid := 0, state := ProcState.UNUSED, killed := true } := by
  have h := (kill_pid_zero_unused
    [{ pid := 7, state := ProcState.RUNNING },
     { pid := 0, state := ProcState.UNUSED },
     { pid := 0, state := ProcState.UNUSED }]).2 1
    { pid := 0, state := ProcState.UNUSED } (by simp) rfl rfl
    (by intro j hj q hq
        cases j with
        | zero =>
          simp only [List.getElem?_cons_zero, Option.some_inj] at hq
          subst hq
          decide
        | succ m => omega)
  exact ⟨h.1, h.2⟩

/-! ### Claim C3: the lottery scheduler's selection scan -/

theorem tickets_sum_nil : tickets_sum [] = 0 := rfl

theorem tickets_sum_shift (ps : List Proc) :
    ∀ a : Int,
      ps.foldl (fun acc p => if p.state = ProcState.RUNNABLE then acc + p.tickets else acc) a
        = a + tickets_sum ps := by
  induction ps with
  | nil => intro a; simp [tickets_sum]
  | cons p rest ih =>
    intro a
    by_cases h : p.state = ProcState.RUNNABLE
    · simp only [tickets_sum, List.foldl_cons, if_pos h]
      rw [ih (a + p.tickets), ih (0 + p.tickets)]
      ring
    · simp only [tickets_sum, List.foldl_cons, if_neg h]
      rw [ih a, ih 0]
      ring

theorem tickets_sum_cons (p : Proc) (rest : List Proc) :
    tickets_sum (p :: rest) =
      (if p.state = ProcState.RUNNABLE then p.tickets else 0) + tickets_sum rest := by
  by_cases h : p.state = ProcState.RUNNABLE
  · simp only [tickets_sum, List.foldl_cons, if_pos h]
    rw [tickets_sum_shift rest (0 + p.tickets)]
    simp only [tickets_sum]
    ring
  · simp only [tickets_sum, List.foldl_cons, if_neg h]
    rw [tickets_sum_shift rest 0]
    simp only [tickets_sum]
    ring

theorem runnableCum_cons_zero (p : Proc) (rest : List Proc) :
    runnableCum (p :: rest) 0 =
      (if p.state = ProcState.RUNNABLE then p.tickets else 0) := by
  show tickets_sum ((p :: rest).take 1) = _
  rw [List.take_succ_cons, List.take_zero, tickets_sum_cons, tickets_sum_nil, add_zero]

theorem runnableCum_cons_succ (p : Proc) (rest : List Proc) (k : Nat) :
    runnableCum (p :: rest) (k + 1) =
      (if p.state = ProcState.RUNNABLE then p.tickets else 0) + runnableCum rest k := by
  show tickets_sum ((p :: rest).take (k + 2)) = _
  rw [List.take_succ_cons, tickets_sum_cons]
  rfl

theorem tickets_sum_filter :
    ∀ ps : List Proc, tickets_sum ps =
      ((ps.filter (fun p => decide (p.state = ProcState.RUNNABLE))).map Proc.tickets).sum := by
  intro ps
  induction ps with
  | nil => rfl
  | cons p rest ih =>
    rw [tickets_sum_cons, ih]
    by_cases h : p.state = ProcState.RUNNABLE
    · simp [List.filter_cons, h]
    · simp [List.filter_cons, h]

theorem schedScan_some :
    ∀ (ps : List Proc) (c w : Int) (i : Nat), schedScan ps w c = some i →
      ∃ p, ps[i]? = some p ∧ p.state = ProcState.RUNNABLE ∧
        w ≤ c + runnableCum ps i ∧
        ∀ (j : Nat), j < i → ∀ (q : Proc), ps[j]? = some q →
          q.state = ProcState.RUNNABLE → c + runnableCum ps j < w := by
  intro ps
  induction ps with
  | nil => intro c w i h; simp [schedScan] at h
  | cons p rest ih =>
    intro c w i h
    by_cases hr : p.state = ProcState.RUNNABLE
    · by_cases hlt : c + p.tickets < w
      · rw [schedScan, if_pos hr, if_pos hlt] at h
        rw [Option.map_eq_some'] at h
        obtain ⟨i1, hi1, rfl⟩ := h
        obtain ⟨q, hq, hqr, hw, hearlier⟩ := ih (c + p.tickets) w i1 hi1
        refine ⟨q, by simpa using hq, hqr, ?_, ?_⟩
        · rw [runnableCum_cons_succ, if_pos hr]
          omega
        · intro j hj r hrj hrr
          cases j with
          | zero =>
            rw [runnableCum_cons_zero, if_pos hr]
            omega
          | succ m =>
            rw [runnableCum_cons_succ, if_pos hr]
            have := hearlier m (by omega) r (by simpa using hrj) hrr
            omega
      · rw [schedScan, if_pos hr, if_neg hlt] at h
        simp only [Option.some_inj] at h
        subst h
        refine ⟨p, by simp, hr, ?_, ?_⟩
        · rw [runnableCum_cons_zero, if_pos hr]
          omega
        · intro j hj
          exact absurd hj (Nat.not_lt_zero j)
    · rw [schedScan, if_neg hr] at h
      rw [Option.map_eq_some'] at h
      obtain ⟨i1, hi1, rfl⟩ := h
      obtain ⟨q, hq, hqr, hw, hearlier⟩ := ih c w i1 hi1
      refine ⟨q, by simpa using hq, hqr, ?_, ?_⟩
      · rw [runnableCum_cons_succ, if_neg hr]
        omega
      · intro j hj r hrj hrr
        cases j with
        | zero =>
          simp only [List.getElem?_cons_zero, Option.some_inj] at hrj
          subst hrj
          exact absurd hrr hr
        | succ m =>
          rw [runnableCum_cons_succ, if_neg hr]
          have := hearlier m (by omega) r (by simpa using hrj) hrr
          omega

theorem schedScan_none :
    ∀ (ps : List Proc) (c w : Int), schedScan ps w c = none →
      ∀ (j : Nat) (q : Proc), ps[j]? = some q → q.state = ProcState.RUNNABLE →
        c + runnableCum ps j < w := by
  intro ps
  induction ps with
  | nil => intro c w _ j q hq; simp at hq
  | cons p rest ih =>
    intro c w h j q hq hqr
    by_cases hr : p.state = ProcState.RUNNABLE
    · by_cases hlt : c + p.tickets < w
      · rw [schedScan, if_pos hr, if_pos hlt] at h
        rw [Option.map_eq_none'] at h
        cases j with
        | zero =>
          rw [runnableCum_cons_zero, if_pos hr]
          omega
        | succ m =>
          rw [runnableCum_cons_succ, if_pos hr]
          have := ih (c + p.tickets) w h m q (by simpa using hq) hqr
          omega
      · rw [schedScan, if_pos hr, if_neg hlt] at h
        simp at h
    · rw [schedScan, if_neg hr] at h
      rw [Option.map_eq_none'] at h
      cases j with
      | zero =>
        simp only [List.getElem?_cons_zero, Option.some_inj] at hq
        subst hq
        exact absurd hqr hr
      | succ m =>
        rw [runnableCum_cons_succ, if_neg hr]
        have := ih c w h m q (by simpa using hq) hqr
        omega

/-- Claim C3: with `total` the sum of tickets over exactly the
`Runnable` records, a scheduler pass with a drawn `winner` dispatches
the first record in table order with state `Runnable` whose cumulative
ticket sum over `Runnable` records is `≥ winner`; a record in any other
state (in particular `Embryo`) is never selected; and if nothing is
selected, every `Runnable` record's cumulative sum is below `winner`. -/
theorem scheduler_first_runnable_cumulative (ps : List Proc) (winner : Int) :
    tickets_sum ps =
      ((ps.filter (fun p => decide (p.state = ProcState.RUNNABLE))).map Proc.tickets).sum ∧
    (∀ (i : Nat), schedSelect ps winner = some i →
      ∃ p, ps[i]? = some p ∧ p.state = ProcState.RUNNABLE ∧
        winner ≤ runnableCum ps i ∧
        ∀ (j : Nat), j < i → ∀ (q : Proc), ps[j]? = some q →
          q.state = ProcState.RUNNABLE → runnableCum ps j < winner) ∧
    (∀ (i : Nat) (p : Proc), schedSelect ps winner = some i → ps[i]? = some p →
      p.state ≠ ProcState.EMBRYO) ∧
    (schedSelect ps winner = none →
      ∀ (j : Nat) (q : Proc), ps[j]? = some q → q.state = ProcState.RUNNABLE →
        runnableCum ps j < winner) := by
  refine ⟨tickets_sum_filter ps, ?_, ?_, ?_⟩
  · intro i h
    obtain ⟨p, hp, hpr, hw, hearlier⟩ := schedScan_some ps 0 winner i h
    refine ⟨p, hp, hpr, by omega, ?_⟩
    intro j hj q hq hqr
    have := hearlier j hj q hq hqr
    omega
  · intro i p h hp
    obtain ⟨q, hq, hqr, _, _⟩ := schedScan_some ps 0 winner i h
    rw [hp, Option.some_inj] at hq
    subst hq
    rw [hqr]
    intro hcon
    exact ProcState.noConfusion hcon
  · intro h j q hq hqr
    have := schedScan_none ps 0 winner h j q hq hqr
    omega

/-- Witness for C3: table `[Embryo(5 tickets), Runnable(2), Runnable(3)]`
with winner 3 dispatches index 2 (cumulative runnable sum 5 ≥ 3, the
earlier runnable record only reaches 2), never the embryo. -/
theorem scheduler_first_runnable_cumulative_witness :
    schedSelect [{ state := ProcState.EMBRYO, tickets := 5 },
                 { state := ProcState.RUNNABLE, tickets := 2 },
                 { state := ProcState.RUNNABLE, tickets := 3 }] 3 = some 2 ∧
    (3 : Int) ≤ runnableCum [{ state := ProcState.EMBRYO, tickets := 5 },
                 { state := ProcState.RUNNABLE, tickets := 2 },
                 { state := ProcState.RUNNABLE, tickets := 3 }] 2 := by
  have h := (scheduler_first_runnable_cumulative
    [{ state := ProcState.EMBRYO, tickets := 5 },
     { state := ProcState.RUNNABLE, tickets := 2 },
     { state := ProcState.RUNNABLE, tickets := 3 }] 3).2.1 2 (by decide)
  obtain ⟨p, _, _, hw, _⟩ := h
  exact ⟨by decide, hw⟩

/-! ### Claim C4: wait -/

/-- Counterexample to C4 as stated: the claim says a caller whose
`killed` flag is set gets the failure value `-1` from `wait`, but the
killed check runs only after the zombie scan, so a killed caller with a
zombie child is handed the child's pid.  Slot 0 (pid 1) is killed, its
zombie child (pid 2) is reaped and `wait` returns 2, not failure. -/
theorem wait_killed_returns_pid_counterexample :
    wait1 0 [{ pid := 1, state := ProcState.RUNNING, killed := true },
             { pid := 2, parent := 1, state := ProcState.ZOMBIE,
               kstack := 4, pgdir := 6 }] =
      WaitRes.reaped 2
        [{ pid := 1, state := ProcState.RUNNING, killed := true },
         { pid := 0, state := ProcState.UNUSED, pgdir := 6 }]
        [4] [6] ∧
    wait1 0 [{ pid := 1, state := ProcState.RUNNING, killed := true },
             { pid := 2, parent := 1, state := ProcState.ZOMBIE,
               kstack := 4, pgdir := 6 }] ≠ WaitRes.nokids := by
  exact ⟨by decide, by decide⟩

/-- Claim C4 (amended): if some record has `parent == caller` and state
`Zombie`, `wait` reaps the first such record — frees its kernel stack
and address space, clears `pid`/`parent`/`name`/`killed`, sets it
`Unused`, leaves every other slot unchanged — and returns its pid; if
the caller has no record with `parent == caller` at all, or if no such
record is a `Zombie` and the caller's `killed` flag is set, `wait`
returns the failure value (amendment: a killed caller that does have a
zombie child is handed the pid, not the failure value). -/
theorem wait_reaps_first_zombie_child (caller : Nat) (ps : List Proc) :
    (∀ (cp : Proc), ps[caller]? = some cp →
      ∀ (i : Nat) (p : Proc), ps[i]? = some p →
        p.parent = addrOf caller → p.state = ProcState.ZOMBIE →
        (∀ (j : Nat), j < i → ∀ (q : Proc), ps[j]? = some q →
          ¬(q.parent = addrOf caller ∧ q.state = ProcState.ZOMBIE)) →
        wait1 caller ps =
          WaitRes.reaped p.pid (setAt ps i reapWait) [p.kstack] [p.pgdir] ∧
        (setAt ps i reapWait)[i]? = some { p with
            kstack := 0, pid := 0, parent := 0, name := "", killed := false,
            state := ProcState.UNUSED } ∧
        (∀ (j : Nat), j ≠ i → (setAt ps i reapWait)[j]? = ps[j]?)) ∧
    (∀ (cp : Proc), ps[caller]? = some cp →
      (∀ (j : Nat) (q : Proc), ps[j]? = some q → q.parent ≠ addrOf caller) →
      wait1 caller ps = WaitRes.nokids) ∧
    (∀ (cp : Proc), ps[caller]? = some cp → cp.killed = true →
      (∀ (j : Nat) (q : Proc), ps[j]? = some q →
        ¬(q.parent = addrOf caller ∧ q.state = ProcState.ZOMBIE)) →
      wait1 caller ps = WaitRes.nokids) := by
  refine ⟨?_, ?_, ?_⟩
  · intro cp hcp i p hp hpar hz hearlier
    have hfind : findIdxP
        (fun p => isChildOf caller p && decide (p.state = ProcState.ZOMBIE)) ps = some i := by
      refine findIdxP_first _ ps i p hp (by simp [isChildOf, hpar, hz]) ?_
      intro j hj q hq
      have := hearlier j hj q hq
      simp only [isChildOf, Bool.and_eq_false_iff]
      by_cases hqp : q.parent = addrOf caller
      · right
        simp only [decide_eq_false_iff_not]
        intro hqs
        exact this ⟨hqp, hqs⟩
      · left
        simp [hqp]
    refine ⟨?_, ?_, ?_⟩
    · simp only [wait1, hcp, hfind, hp]
    · rw [getq_setAt_self, hp, Option.map_some']
      rfl
    · intro j hji
      exact getq_setAt_ne _ ps i j hji
  · intro cp hcp hnochild
    have hany : ps.any (isChildOf caller) = false := by
      refine (any_false_iff _ ps).2 ?_
      intro j q hq
      simp [isChildOf, hnochild j q hq]
    have hfind : findIdxP
        (fun p => isChildOf caller p && decide (p.state = ProcState.ZOMBIE)) ps = none := by
      cases hf : findIdxP
          (fun p => isChildOf caller p && decide (p.state = ProcState.ZOMBIE)) ps with
      | some i =>
        obtain ⟨p, hp, hfp, _⟩ := findIdxP_some _ ps i hf
        rw [Bool.and_eq_true] at hfp
        have : p.parent = addrOf caller := by
          have := hfp.1
          simpa [isChildOf] using this
        exact absurd this (hnochild i p hp)
      | none => rfl
    simp [wait1, hcp, hfind, hany]
  · intro cp hcp hkilled hnozombie
    have hfind : findIdxP
        (fun p => isChildOf caller p && decide (p.state = ProcState.ZOMBIE)) ps = none := by
      cases hf : findIdxP
          (fun p => isChildOf caller p && decide (p.state = ProcState.ZOMBIE)) ps with
      | some i =>
        obtain ⟨p, hp, hfp, _⟩ := findIdxP_some _ ps i hf
        rw [Bool.and_eq_true] at hfp
        have h1 : p.parent = addrOf caller := by
          have := hfp.1
          simpa [isChildOf] using this
        have h2 : p.state = ProcState.ZOMBIE := by
          have := hfp.2
          simpa using this
        exact absurd ⟨h1, h2⟩ (hnozombie i p hp)
      | none => rfl
    simp [wait1, hcp, hfind, hkilled]

/-- Witness for the amended C4: a zombie child (pid 9) is reaped and its
pid returned; a caller with no children at all gets the failure
return. -/
theorem wait_reaps_first_zombie_child_witness :
    wait1 0 [{ pid := 1, state := ProcState.RUNNING },
             { pid := 9, parent := 1, state := ProcState.ZOMBIE,
               kstack := 3, pgdir := 8 }] =
      WaitRes.reaped 9
        (setAt [{ pid := 1, state := ProcState.RUNNING },
                { pid := 9, parent := 1, state := ProcState.ZOMBIE,
                  kstack := 3, pgdir := 8 }] 1 reapWait) [3] [8] ∧
    wait1 0 [{ pid := 1, state := ProcState.RUNNING }] = WaitRes.nokids := by
  constructor
  · exact ((wait_reaps_first_zombie_child 0
      [{ pid := 1, state := ProcState.RUNNING },
       { pid := 9, parent := 1, state := ProcState.ZOMBIE,
         kstack := 3, pgdir := 8 }]).1
      { pid := 1, state := ProcState.RUNNING } (by simp) 1
      { pid := 9, parent := 1, state := ProcState.ZOMBIE, kstack := 3, pgdir := 8 }
      (by simp) rfl rfl
      (by intro j hj q hq
          cases j with
          | zero =>
            simp only [List.getElem?_cons_zero, Option.some_inj] at hq
            subst hq
            decide
          | succ m => omega)).1
  · exact (wait_reaps_first_zombie_child 0
      [{ pid := 1, state := ProcState.RUNNING }]).2.1
      { pid := 1, state := ProcState.RUNNING } (by simp)
      (by intro j q hq
          cases j with
          | zero =>
            simp only [List.getElem?_cons_zero, Option.some_inj] at hq
            subst hq
            decide
          | succ m => simp at hq)

/-! ### Claim C1: join (code bug in the out-parameter) -/

/-- Claim C1 evaluated at a failing input.  The caller (slot 0, pid 1,
address space 5) joins its zombie thread (slot 1, pid 9, same address
space 5, kernel stack 33, thread stack 77).  `join` does return the pid
(9) and frees only the kernel stack (`freedK = [33]`, `freedVm = []`,
and the shared `pgdir` handle 5 survives in both slots), but the
caller's `void **stack` cell still holds its old contents (0): the C
code assigns `stack = p->threadstack;` to the local parameter variable
(recorded here as `stackVar = 77`) instead of storing through the
pointer, so the stack handle never reaches the caller. -/
theorem join_out_parameter_bug :
    join1 0 0 [{ pid := 1, state := ProcState.RUNNING, pgdir := 5 },
               { pid := 9, parent := 1, pgdir := 5, state := ProcState.ZOMBIE,
                 kstack := 33, threadstack := 77 }] =
      JoinRes.reaped 9
        [{ pid := 1, state := ProcState.RUNNING, pgdir := 5 },
         { pid := 0, state := ProcState.UNUSED, pgdir := 5 }]
        [33] [] 0 77 ∧
    (0 : Nat) ≠ 77 := by
  exact ⟨by decide, by decide⟩

/-! ### Claim C2: resource-exhaustion cleanup (code bug in clone) -/

/-- Claim C2 evaluated at a failing input.  `clone` with a valid
page-aligned stack (0x1000, within the caller's 0x2000-byte address
space) allocates slot 1 (pid 2, kernel stack 55) and then hits a
`copyout` failure: the C code returns `-1` immediately, leaving the new
record in state `Embryo` with its kernel stack still allocated
(`kstack = 55`) and freeing nothing (`freedK = []`) — the table slot is
not returned to `Unused` and the stack is leaked, contrary to the
claimed release of partially acquired resources. -/
theorem clone_copyout_leak_bug :
    clone 100 0 0 4096 (some 55) false 0 2
      [{ pid := 1, state := ProcState.RUNNING, tickets := 2, pgdir := 3,
         sz := 8192, name := "p" }, {}] =
      some ⟨-1, 3,
        [{ pid := 1, state := ProcState.RUNNING, tickets := 2, pgdir := 3,
           sz := 8192, name := "p" },
         { pid := 2, state := ProcState.EMBRYO, tickets := 1, ticks := 0,
           parent := 1, kstack := 55, pgdir := 3, sz := 8192 }],
        []⟩ ∧
    ProcState.EMBRYO ≠ ProcState.UNUSED := by
  exact ⟨by decide, by decide⟩

/-! ### Claim C7: invalid-argument rejection -/

/-- Counterexample to C7 as stated: the stack-extent check is
`curproc->sz < PGSIZE + (uint)stack` in wrapping 32-bit arithmetic, so
for the page-aligned stack `0xFFFFF000` (= 2^32 - PGSIZE) the sum wraps
to 0 and the check passes even though the one-page extent lies far
outside the caller's 8192-byte address space: `clone` does not return
`-1` and does mutate the table (slot 1 becomes a `Runnable` record). -/
theorem clone_stack_wraparound_counterexample :
    4294963200 % PGSIZE = 0 ∧
    ¬(4294963200 + PGSIZE ≤ 8192) ∧
    clone 100 0 0 4294963200 (some 55) true 0 2
      [{ pid := 1, state := ProcState.RUNNING, pgdir := 3, sz := 8192 }, {}] =
      some ⟨2, 3,
        [{ pid := 1, state := ProcState.RUNNING, pgdir := 3, sz := 8192 },
         { pid := 2, state := ProcState.RUNNABLE, tickets := 1, ticks := 0,
           parent := 1, kstack := 55, pgdir := 3, sz := 8192,
           tf := { eax := 0, esp := 4294967284, ebp := 4294967284, eip := 100 },
           threadstack := 4294963200 }],
        []⟩ := by
  exact ⟨by decide, by decide, by decide⟩

/-- Claim C7 (amended): invalid arguments are rejected synchronously
with no state mutated: `settickets(t)` with `t < 1` returns `-1` and
changes nothing, `settickets(t)` with `t ≥ 1` stores exactly `t`, which
the statistics query reflects; `clone` with a non-page-aligned stack
returns `-1` without mutating any record, and likewise when
`sz < (PGSIZE + stack) mod 2^32` — the extent check as computed in
32-bit arithmetic (amendment: when `stack + PGSIZE` wraps past `2^32`
the check is vacuous and an out-of-extent stack is accepted). -/
theorem invalid_args_rejected (t : Int) (caller : Nat) (ps : List Proc) :
    (t < 1 → settickets caller t ps = (-1, ps)) ∧
    (1 ≤ t → ∀ (cp : Proc), ps[caller]? = some cp →
      (settickets caller t ps).1 = 0 ∧
      (getpinfo (settickets caller t ps).2)[caller]? =
        some ⟨cp.pid, decide (cp.state ≠ ProcState.UNUSED), t, cp.ticks⟩ ∧
      (∀ (j : Nat), j ≠ caller → (settickets caller t ps).2[j]? = ps[j]?)) ∧
    (∀ (fcn arg1 arg2 stack : Nat) (ka : Option Nat) (co : Bool) (np : Int)
       (cp : Proc), ps[caller]? = some cp →
      stack % PGSIZE ≠ 0 →
      clone fcn arg1 arg2 stack ka co caller np ps = some ⟨-1, np, ps, []⟩) ∧
    (∀ (fcn arg1 arg2 stack : Nat) (ka : Option Nat) (co : Bool) (np : Int)
       (cp : Proc), ps[caller]? = some cp →
      stack % PGSIZE = 0 →
      cp.sz < (PGSIZE + stack) % UINT_MOD →
      clone fcn arg1 arg2 stack ka co caller np ps = some ⟨-1, np, ps, []⟩) := by
  refine ⟨?_, ?_, ?_, ?_⟩
  · intro h
    simp [settickets, h]
  · intro h cp hcp
    have hnot : ¬ t < 1 := by omega
    refine ⟨by simp [settickets, hnot], ?_, ?_⟩
    · simp only [settickets, if_neg hnot]
      rw [getpinfo, List.getElem?_map, getq_setAt_self, hcp]
      rfl
    · intro j hj
      simp only [settickets, if_neg hnot]
      exact getq_setAt_ne _ ps caller j hj
  · intro fcn arg1 arg2 stack ka co np cp hcp hmis
    simp only [clone, hcp]
    rw [if_pos hmis]
  · intro fcn arg1 arg2 stack ka co np cp hcp hal hsz
    simp only [clone, hcp]
    rw [if_neg (by simpa using hal), if_pos hsz]

/-- Witness for the amended C7: `settickets 0` fails unchanged,
`settickets 7` is reflected by the statistics query, a misaligned clone
stack (100) and an undersized aligned stack (4096 against a 4096-byte
address space) are both rejected without mutation. -/
theorem invalid_args_rejected_witness :
    settickets 0 0 [{ pid := 1, state := ProcState.RUNNING, tickets := 3 }] =
      (-1, [{ pid := 1, state := ProcState.RUNNING, tickets := 3 }]) ∧
    (getpinfo
        (settickets 0 7 [{ pid := 1, state := ProcState.RUNNING, tickets := 3 }]).2)[0]? =
      some ⟨1, true, 7, 0⟩ ∧
    clone 100 0 0 100 none false 0 2
      [{ pid := 1, state := ProcState.RUNNING, sz := 4096 }] =
      some ⟨-1, 2, [{ pid := 1, state := ProcState.RUNNING, sz := 4096 }], []⟩ ∧
    clone 100 0 0 4096 none false 0 2
      [{ pid := 1, state := ProcState.RUNNING, sz := 4096 }] =
      some ⟨-1, 2, [{ pid := 1, state := ProcState.RUNNING, sz := 4096 }], []⟩ := by
  refine ⟨?_, ?_, ?_, ?_⟩
  · exact (invalid_args_rejected 0 0
      [{ pid := 1, state := ProcState.RUNNING, tickets := 3 }]).1 (by decide)
  · exact ((invalid_args_rejected 7 0
      [{ pid := 1, state := ProcState.RUNNING, tickets := 3 }]).2.1 (by decide)
      { pid := 1, state := ProcState.RUNNING, tickets := 3 } (by simp)).2.1
  · exact (invalid_args_rejected 7 0
      [{ pid := 1, state := ProcState.RUNNING, sz := 4096 }]).2.2.1
      100 0 0 100 none false 2
      { pid := 1, state := ProcState.RUNNING, sz := 4096 } (by simp) (by decide)
  · exact (invalid_args_rejected 7 0
      [{ pid := 1, state := ProcState.RUNNING, sz := 4096 }]).2.2.2
      100 0 0 4096 none false 2
      { pid := 1, state := ProcState.RUNNING, sz := 4096 } (by simp) (by decide)
      (by decide)

/-! ### Claim C9: ticket lock FIFO order -/

theorem tlRun_append (xs ys : List TlEvent) :
    ∀ s : TlState, tlRun s (xs ++ ys) =
      (tlRun s xs).bind (fun s1 => tlRun s1 ys) := by
  induction xs with
  | nil => intro s; simp [tlRun]
  | cons e es ih =>
    intro s
    cases h : tlStep s e with
    | some s1 =>
      simp only [List.cons_append, tlRun, h, Option.some_bind]
      simpa using ih s1
    | none => simp only [List.cons_append, tlRun, h, Option.none_bind]

theorem tlStep_enter_eq (s s1 : TlState) (tid : Nat)
    (h : tlStep s (TlEvent.enter tid) = some s1) :
    s1 = s ∧ tlLookup tid s.tick = some s.current_turn := by
  simp only [tlStep] at h
  cases hl : tlLookup tid s.tick with
  | none =>
    simp only [hl] at h
    exact Option.noConfusion h
  | some t =>
    simp only [hl] at h
    by_cases ht : s.current_turn = t
    · rw [if_pos ht, Option.some_inj] at h
      exact ⟨h.symm, by rw [ht]⟩
    · rw [if_neg ht] at h
      exact Option.noConfusion h

theorem tlStep_turn_mono (s s1 : TlState) (e : TlEvent) (h : tlStep s e = some s1) :
    s.current_turn ≤ s1.current_turn := by
  cases e with
  | draw tid =>
    simp only [tlStep] at h
    cases hl : tlLookup tid s.tick with
    | some t => rw [hl] at h; exact absurd h (by simp)
    | none =>
      rw [hl, Option.some_inj] at h
      rw [← h]
  | enter tid =>
    obtain ⟨rfl, -⟩ := tlStep_enter_eq s s1 tid h
    exact le_refl _
  | rel =>
    simp only [tlStep, Option.some_inj] at h
    rw [← h]
    exact Nat.le_succ _

theorem tlRun_turn_mono (tr : List TlEvent) :
    ∀ s s1 : TlState, tlRun s tr = some s1 → s.current_turn ≤ s1.current_turn := by
  induction tr with
  | nil => intro s s1 h; simp only [tlRun, Option.some_inj] at h; rw [h]
  | cons e es ih =>
    intro s s1 h
    cases he : tlStep s e with
    | none =>
      simp only [tlRun, he] at h
      exact Option.noConfusion h
    | some u =>
      simp only [tlRun, he] at h
      exact le_trans (tlStep_turn_mono s u e he) (ih u s1 h)

theorem tlStep_lookup_stable (s s1 : TlState) (e : TlEvent) (x v : Nat)
    (h : tlStep s e = some s1) (hl : tlLookup x s.tick = some v) :
    tlLookup x s1.tick = some v := by
  cases e with
  | draw tid =>
    simp only [tlStep] at h
    cases hd : tlLookup tid s.tick with
    | some t => rw [hd] at h; exact absurd h (by simp)
    | none =>
      rw [hd, Option.some_inj] at h
      rw [← h]
      show tlLookup x ((tid, s.next_ticket) :: s.tick) = some v
      have htx : tid ≠ x := by
        intro he
        rw [he, hl] at hd
        exact Option.noConfusion hd
      simp only [tlLookup, if_neg htx]
      exact hl
  | enter tid =>
    obtain ⟨rfl, -⟩ := tlStep_enter_eq s s1 tid h
    exact hl
  | rel =>
    simp only [tlStep, Option.some_inj] at h
    rw [← h]
    exact hl

theorem tlRun_lookup_stable (tr : List TlEvent) :
    ∀ (s s1 : TlState) (x v : Nat), tlRun s tr = some s1 →
      tlLookup x s.tick = some v → tlLookup x s1.tick = some v := by
  induction tr with
  | nil => intro s s1 x v h hl; simp only [tlRun, Option.some_inj] at h; rw [← h]; exact hl
  | cons e es ih =>
    intro s s1 x v h hl
    cases he : tlStep s e with
    | none =>
      simp only [tlRun, he] at h
      exact Option.noConfusion h
    | some u =>
      simp only [tlRun, he] at h
      exact ih u s1 x v h (tlStep_lookup_stable s u e x v he hl)

theorem tlStep_inv (s s1 : TlState) (e : TlEvent) (h : tlStep s e = some s1)
    (h1 : ∀ x v : Nat, tlLookup x s.tick = some v → v < s.next_ticket)
    (h2 : ∀ x y vx vy : Nat, tlLookup x s.tick = some vx →
      tlLookup y s.tick = some vy → x ≠ y → vx ≠ vy) :
    (∀ x v : Nat, tlLookup x s1.tick = some v → v < s1.next_ticket) ∧
    (∀ x y vx vy : Nat, tlLookup x s1.tick = some vx →
      tlLookup y s1.tick = some vy → x ≠ y → vx ≠ vy) := by
  cases e with
  | draw tid =>
    simp only [tlStep] at h
    cases hd : tlLookup tid s.tick with
    | some t => rw [hd] at h; exact absurd h (by simp)
    | none =>
      rw [hd, Option.some_inj] at h
      subst h
      constructor
      · intro x v hx
        have hx' : (if tid = x then some s.next_ticket else tlLookup x s.tick) = some v := hx
        show v < s.next_ticket + 1
        by_cases htx : tid = x
        · rw [if_pos htx, Option.some_inj] at hx'
          omega
        · rw [if_neg htx] at hx'
          have := h1 x v hx'
          omega
      · intro x y vx vy hx hy hxy
        have hx' : (if tid = x then some s.next_ticket else tlLookup x s.tick) = some vx := hx
        have hy' : (if tid = y then some s.next_ticket else tlLookup y s.tick) = some vy := hy
        by_cases htx : tid = x
        · rw [if_pos htx, Option.some_inj] at hx'
          have hty : ¬ tid = y := fun he => hxy (by rw [← htx, he])
          rw [if_neg hty] at hy'
          have := h1 y vy hy'
          omega
        · rw [if_neg htx] at hx'
          by_cases hty : tid = y
          · rw [if_pos hty, Option.some_inj] at hy'
            have := h1 x vx hx'
            omega
          · rw [if_neg hty] at hy'
            exact h2 x y vx vy hx' hy' hxy
  | enter tid =>
    obtain ⟨rfl, -⟩ := tlStep_enter_eq s s1 tid h
    exact ⟨h1, h2⟩
  | rel =>
    simp only [tlStep, Option.some_inj] at h
    subst h
    exact ⟨h1, h2⟩

theorem tlRun_inv (tr : List TlEvent) :
    ∀ s s1 : TlState, tlRun s tr = some s1 →
      (∀ x v : Nat, tlLookup x s.tick = some v → v < s.next_ticket) →
      (∀ x y vx vy : Nat, tlLookup x s.tick = some vx →
        tlLookup y s.tick = some vy → x ≠ y → vx ≠ vy) →
      (∀ x v : Nat, tlLookup x s1.tick = some v → v < s1.next_ticket) ∧
      (∀ x y vx vy : Nat, tlLookup x s1.tick = some vx →
        tlLookup y s1.tick = some vy → x ≠ y → vx ≠ vy) := by
  induction tr with
  | nil =>
    intro s s1 h h1 h2
    simp only [tlRun, Option.some_inj] at h
    subst h
    exact ⟨h1, h2⟩
  | cons e es ih =>
    intro s s1 h h1 h2
    cases he : tlStep s e with
    | none =>
      simp only [tlRun, he] at h
      exact Option.noConfusion h
    | some u =>
      simp only [tlRun, he] at h
      obtain ⟨g1, g2⟩ := tlStep_inv s u e he h1 h2
      exact ih u s1 h g1 g2

/-- Claim C9: the ticket lock is FIFO by ticket number — a thread may
hold the lock (leave the acquire loop) exactly when the ticket it drew
equals `current_turn`; `release_t` increments `current_turn` by exactly
one; and in any legal trace from the initial lock state, of two distinct
acquirers the one that enters its critical section first is the one with
the smaller drawn ticket. -/
theorem ticketlock_fifo :
    (∀ (s : TlState) (tid : Nat),
      (tlStep s (TlEvent.enter tid)).isSome = true ↔
        tlLookup tid s.tick = some s.current_turn) ∧
    (∀ s : TlState, tlStep s TlEvent.rel =
      some ⟨s.next_ticket, s.current_turn + 1, s.tick⟩) ∧
    (∀ (a b : Nat) (tr1 tr2 tr3 : List TlEvent) (sf : TlState) (ta tb : Nat),
      a ≠ b →
      tlRun tlInit
        (tr1 ++ TlEvent.enter a :: (tr2 ++ TlEvent.enter b :: tr3)) = some sf →
      tlLookup a sf.tick = some ta → tlLookup b sf.tick = some tb →
      ta < tb) := by
  refine ⟨?_, ?_, ?_⟩
  · intro s tid
    constructor
    · intro h
      rw [Option.isSome_iff_exists] at h
      obtain ⟨s1, hs1⟩ := h
      exact (tlStep_enter_eq s s1 tid hs1).2
    · intro h
      simp [tlStep, h]
  · intro s
    rfl
  · intro a b tr1 tr2 tr3 sf ta tb hab hrun hla hlb
    rw [tlRun_append] at hrun
    rw [Option.bind_eq_some] at hrun
    obtain ⟨s1, hrun1, hrun⟩ := hrun
    cases hea : tlStep s1 (TlEvent.enter a) with
    | none =>
      simp only [tlRun, hea] at hrun
      exact Option.noConfusion hrun
    | some u =>
      simp only [tlRun, hea] at hrun
      obtain ⟨hus, henter_a⟩ := tlStep_enter_eq s1 u a hea
      rw [hus] at hrun
      rw [tlRun_append] at hrun
      rw [Option.bind_eq_some] at hrun
      obtain ⟨s2, hrun2, hrun⟩ := hrun
      cases heb : tlStep s2 (TlEvent.enter b) with
      | none =>
        simp only [tlRun, heb] at hrun
        exact Option.noConfusion hrun
      | some w =>
        simp only [tlRun, heb] at hrun
        obtain ⟨hws, henter_b⟩ := tlStep_enter_eq s2 w b heb
        rw [hws] at hrun
        -- a's and b's tickets persist to sf, so ta/tb are the turns
        -- at the two enter events.
        have hla2 : tlLookup a s2.tick = some s1.current_turn :=
          tlRun_lookup_stable tr2 s1 s2 a s1.current_turn hrun2 henter_a
        have hlaf : tlLookup a sf.tick = some s1.current_turn :=
          tlRun_lookup_stable tr3 s2 sf a s1.current_turn hrun hla2
        have hlbf : tlLookup b sf.tick = some s2.current_turn :=
          tlRun_lookup_stable tr3 s2 sf b s2.current_turn hrun henter_b
        rw [hlaf, Option.some_inj] at hla
        rw [hlbf, Option.some_inj] at hlb
        subst hla
        subst hlb
        -- the turn counter is monotone between the two enters
        have hmono : s1.current_turn ≤ s2.current_turn :=
          tlRun_turn_mono tr2 s1 s2 hrun2
        -- distinct threads hold distinct tickets (invariant from tlInit)
        have hinv := tlRun_inv tr1 tlInit s1 hrun1
          (by intro x v hx; simp [tlInit, tlLookup] at hx)
          (by intro x y vx vy hx; simp [tlInit, tlLookup] at hx)
        have hinv2 := tlRun_inv tr2 s1 s2 hrun2 hinv.1 hinv.2
        have hne : s1.current_turn ≠ s2.current_turn :=
          hinv2.2 a b s1.current_turn s2.current_turn hla2 henter_b hab
        omega

/-! ### Claim C5: exit — algebra of the per-record transforms -/

theorem wakeProc_parent (c : Nat) (p : Proc) : (wakeProc c p).parent = p.parent := by
  rw [wakeProc]
  split <;> rfl

theorem wakeProc_state_chan (c : Nat) (p : Proc) :
    (wakeProc c p).chan = p.chan ∧
    ((wakeProc c p).state = ProcState.SLEEPING → p.state = ProcState.SLEEPING) := by
  rw [wakeProc]
  split
  · exact ⟨rfl, fun h => ProcState.noConfusion h⟩
  · exact ⟨rfl, fun h => h⟩

theorem wakeProc_idem (c : Nat) (p : Proc) :
    wakeProc c (wakeProc c p) = wakeProc c p := by
  by_cases h : p.state = ProcState.SLEEPING ∧ p.chan = c
  · have h1 : wakeProc c p = { p with state := ProcState.RUNNABLE } := by
      rw [wakeProc, if_pos h]
    rw [h1, wakeProc, if_neg]
    rintro ⟨hs, -⟩
    exact ProcState.noConfusion hs
  · have h1 : wakeProc c p = p := by rw [wakeProc, if_neg h]
    rw [h1]
    exact h1

theorem wakeProc_zombie (c : Nat) (p : Proc) (h : p.state = ProcState.ZOMBIE) :
    wakeProc c p = p := by
  rw [wakeProc, if_neg]
  rintro ⟨hs, -⟩
  rw [h] at hs
  exact ProcState.noConfusion hs

theorem wakeProc_parent_comm (c x : Nat) (p : Proc) :
    { wakeProc c p with parent := x } = wakeProc c { p with parent := x } := by
  by_cases h : p.state = ProcState.SLEEPING ∧ p.chan = c
  · rw [wakeProc, if_pos h, wakeProc, if_pos (by exact h)]
  · rw [wakeProc, if_neg h, wakeProc, if_neg (by exact h)]

theorem wakeProc_pred (cA c : Nat) (p : Proc) :
    decide ((wakeProc c p).parent = cA ∧ (wakeProc c p).state = ProcState.ZOMBIE) =
      decide (p.parent = cA ∧ p.state = ProcState.ZOMBIE) := by
  by_cases h : p.state = ProcState.SLEEPING ∧ p.chan = c
  · rw [wakeProc, if_pos h]
    have hps : p.state = ProcState.SLEEPING := h.1
    simp [hps]
  · rw [wakeProc, if_neg h]

theorem reparentSpec_not_inSet (cA iA : Nat) (z : Bool) (p : Proc) :
    reparentSpec cA iA z false p = cond z (wakeProc iA p) p := rfl

theorem reparentSpec_inSet_hit (cA iA : Nat) (z : Bool) (p : Proc)
    (h : p.parent = cA) :
    reparentSpec cA iA z true p =
      cond z (wakeProc iA { p with parent := iA }) { p with parent := iA } := by
  rw [reparentSpec]
  simp only [Bool.cond_true]
  rw [if_pos h]

theorem reparentSpec_inSet_miss (cA iA : Nat) (z : Bool) (p : Proc)
    (h : ¬ p.parent = cA) :
    reparentSpec cA iA z true p = cond z (wakeProc iA p) p := by
  rw [reparentSpec]
  simp only [Bool.cond_true]
  rw [if_neg h]

theorem reparentSpec_wakeProc (cA iA : Nat) (z b : Bool) (p : Proc) :
    reparentSpec cA iA z b (wakeProc iA p) = reparentSpec cA iA true b p := by
  cases b with
  | false =>
    rw [reparentSpec_not_inSet, reparentSpec_not_inSet, wakeProc_idem]
    cases z <;> rfl
  | true =>
    by_cases hp : p.parent = cA
    · have hWp : (wakeProc iA p).parent = cA := by rw [wakeProc_parent]; exact hp
      rw [reparentSpec_inSet_hit cA iA z (wakeProc iA p) hWp,
        reparentSpec_inSet_hit cA iA true p hp,
        wakeProc_parent_comm, wakeProc_idem]
      cases z <;> rfl
    · have hWp : ¬ (wakeProc iA p).parent = cA := by rw [wakeProc_parent]; exact hp
      rw [reparentSpec_inSet_miss cA iA z (wakeProc iA p) hWp,
        reparentSpec_inSet_miss cA iA true p hp, wakeProc_idem]
      cases z <;> rfl

theorem zombieChildOn_congr (cA : Nat) :
    ∀ (idxs : List Nat) (ps1 ps2 : List Proc),
      (∀ k, k ∈ idxs → zpred cA ps1[k]? = zpred cA ps2[k]?) →
      zombieChildOn cA idxs ps1 = zombieChildOn cA idxs ps2 := by
  intro idxs
  induction idxs with
  | nil => intro ps1 ps2 _; rfl
  | cons i rest ih =>
    intro ps1 ps2 h
    simp only [zombieChildOn, List.any_cons]
    rw [h i (List.mem_cons_self i rest)]
    have hr := ih ps1 ps2 (fun k hk => h k (List.mem_cons_of_mem i hk))
    simp only [zombieChildOn] at hr
    rw [hr]

theorem zpred_map_wakeProc (cA c : Nat) (o : Option Proc) :
    zpred cA (o.map (wakeProc c)) = zpred cA o := by
  cases o with
  | none => rfl
  | some r =>
    simp only [Option.map_some', zpred]
    exact wakeProc_pred cA c r

theorem zombieChild_wakeup1 (cA c : Nat) (ps : List Proc) :
    zombieChild cA (wakeup1 c ps) = zombieChild cA ps := by
  rw [zombieChild, zombieChild, wakeup1, List.any_map]
  induction ps with
  | nil => rfl
  | cons p rest ih =>
    simp only [List.any_cons]
    rw [ih]
    have := wakeProc_pred cA c p
    rw [Function.comp_apply, this]

theorem zombieChildOn_range (cA : Nat) (ps : List Proc) :
    zombieChildOn cA (List.range ps.length) ps = zombieChild cA ps := by
  cases hzc : zombieChild cA ps with
  | true =>
    rw [zombieChild, List.any_eq_true] at hzc
    obtain ⟨r, hr, hpr⟩ := hzc
    obtain ⟨k, hk⟩ := List.mem_iff_getElem?.mp hr
    rw [zombieChildOn, List.any_eq_true]
    refine ⟨k, ?_, ?_⟩
    · rw [List.mem_range]
      exact (List.getElem?_eq_some_iff.mp hk).1
    · rw [hk]
      exact hpr
  | false =>
    rw [zombieChild, List.any_eq_false] at hzc
    rw [zombieChildOn, List.any_eq_false]
    intro k hk
    cases hpk : ps[k]? with
    | none => simp [zpred]
    | some r =>
      have hmem : r ∈ ps := List.mem_iff_getElem?.mpr ⟨k, hpk⟩
      have := hzc r hmem
      simp only [zpred]
      simpa using this

/-- Witness for C9: in the concrete trace `draw 10; draw 20; enter 10;
release; enter 20`, thread 10 drew ticket 0, thread 20 drew ticket 1,
and the FIFO theorem yields 0 < 1. -/
theorem ticketlock_fifo_witness :
    tlRun tlInit [TlEvent.draw 10, TlEvent.draw 20, TlEvent.enter 10,
      TlEvent.rel, TlEvent.enter 20] =
      some ⟨2, 1, [(20, 1), (10, 0)]⟩ ∧
    (0 : Nat) < 1 := by
  refine ⟨by decide, ?_⟩
  exact ticketlock_fifo.2.2 10 20 [TlEvent.draw 10, TlEvent.draw 20]
    [TlEvent.rel] [] ⟨2, 1, [(20, 1), (10, 0)]⟩ 0 1 (by decide) (by decide)
    (by decide) (by decide)

/-! ### Claim C5: exit — the re-parenting loop, element-wise -/

theorem reparentList_getq (cA iA : Nat) :
    ∀ (idxs : List Nat), idxs.Nodup →
      ∀ (ps : List Proc) (j : Nat) (p : Proc), ps[j]? = some p →
        (reparentList cA iA idxs ps)[j]? =
          some (reparentSpec cA iA (zombieChildOn cA idxs ps) (decide (j ∈ idxs)) p) := by
  intro idxs
  induction idxs with
  | nil =>
    intro _ ps j p hp
    simp [reparentList, zombieChildOn, reparentSpec_not_inSet, hp]
  | cons i rest ih =>
    intro hnd ps j p hp
    rw [List.nodup_cons] at hnd
    obtain ⟨hni, hnd'⟩ := hnd
    have hmem : ∀ (hj : j ≠ i), decide (j ∈ i :: rest) = decide (j ∈ rest) := by
      intro hj
      simp [List.mem_cons, hj]
    rw [reparentList]
    cases hpi : ps[i]? with
    | none =>
      have hstep : reparentStep cA iA ps i = ps := by
        simp only [reparentStep, hpi]
      have hj : j ≠ i := by
        intro he
        rw [he, hpi] at hp
        exact Option.noConfusion hp
      have hzc : zombieChildOn cA (i :: rest) ps = zombieChildOn cA rest ps := by
        simp [zombieChildOn, List.any_cons, zpred, hpi]
      rw [hstep, ih hnd' ps j p hp, hzc, hmem hj]
    | some q =>
      have hpq : j = i → p = q := by
        intro he
        rw [he, hpi] at hp
        exact (Option.some_inj.mp hp).symm
      by_cases hqp : q.parent = cA
      · by_cases hqz : q.state = ProcState.ZOMBIE
        · -- a zombie child of the caller sits at index i
          have hstep : reparentStep cA iA ps i =
              wakeup1 iA (setAt ps i (fun r => { r with parent := iA })) := by
            simp only [reparentStep, hpi]
            rw [if_pos hqp, if_pos hqz]
          have hzc : zombieChildOn cA (i :: rest) ps = true := by
            simp [zombieChildOn, List.any_cons, zpred, hpi, hqp, hqz]
          rw [hstep, hzc]
          by_cases hj : j = i
          · subst hj
            have hq' := hpq rfl
            subst hq'
            have hset : (setAt ps j (fun r => { r with parent := iA }))[j]? =
                some { p with parent := iA } := by
              rw [getq_setAt_self, hpi, Option.map_some']
            have hw : (wakeup1 iA (setAt ps j (fun r => { r with parent := iA })))[j]? =
                some { p with parent := iA } := by
              rw [getq_wakeup1, hset, Option.map_some',
                wakeProc_zombie iA _ (by exact hqz)]
            rw [ih hnd' _ j _ hw]
            have hmi : decide (j ∈ rest) = false := by simp [hni]
            have hmi2 : decide (j ∈ j :: rest) = true := by simp
            rw [hmi, hmi2, reparentSpec_not_inSet,
              wakeProc_zombie iA _ (by exact hqz), Bool.cond_self,
              reparentSpec_inSet_hit cA iA true p hqp, Bool.cond_true,
              wakeProc_zombie iA _ (by exact hqz)]
          · have hset : (setAt ps i (fun r => { r with parent := iA }))[j]? = some p := by
              rw [getq_setAt_ne _ ps i j hj, hp]
            have hw : (wakeup1 iA (setAt ps i (fun r => { r with parent := iA })))[j]? =
                some (wakeProc iA p) := by
              rw [getq_wakeup1, hset, Option.map_some']
            rw [ih hnd' _ j _ hw, reparentSpec_wakeProc, hmem hj]
        · -- a live child of the caller sits at index i
          have hstep : reparentStep cA iA ps i =
              setAt ps i (fun r => { r with parent := iA }) := by
            simp only [reparentStep, hpi]
            rw [if_pos hqp, if_neg hqz]
          have hzc : zombieChildOn cA (i :: rest) ps = zombieChildOn cA rest ps := by
            simp [zombieChildOn, List.any_cons, zpred, hpi, hqz]
          have hzset : zombieChildOn cA rest (setAt ps i (fun r => { r with parent := iA })) =
              zombieChildOn cA rest ps := by
            apply zombieChildOn_congr
            intro k hk
            have hki : k ≠ i := fun he => hni (he ▸ hk)
            rw [getq_setAt_ne _ ps i k hki]
          rw [hstep]
          by_cases hj : j = i
          · subst hj
            have hq' := hpq rfl
            subst hq'
            have hset : (setAt ps j (fun r => { r with parent := iA }))[j]? =
                some { p with parent := iA } := by
              rw [getq_setAt_self, hpi, Option.map_some']
            rw [ih hnd' _ j _ hset, hzset, hzc]
            have hmi : decide (j ∈ rest) = false := by simp [hni]
            have hmi2 : decide (j ∈ j :: rest) = true := by simp
            rw [hmi, hmi2, reparentSpec_not_inSet,
              reparentSpec_inSet_hit cA iA _ p hqp]
          · have hset : (setAt ps i (fun r => { r with parent := iA }))[j]? = some p := by
              rw [getq_setAt_ne _ ps i j hj, hp]
            rw [ih hnd' _ j _ hset, hzset, hzc, hmem hj]
      · -- the record at index i is not a child of the caller
        have hstep : reparentStep cA iA ps i = ps := by
          simp only [reparentStep, hpi]
          rw [if_neg hqp]
        have hzc : zombieChildOn cA (i :: rest) ps = zombieChildOn cA rest ps := by
          simp [zombieChildOn, List.any_cons, zpred, hpi, hqp]
        rw [hstep, ih hnd' ps j p hp, hzc]
        by_cases hj : j = i
        · subst hj
          have hq' := hpq rfl
          have hmi : decide (j ∈ rest) = false := by simp [hni]
          have hmi2 : decide (j ∈ j :: rest) = true := by simp
          rw [hmi, hmi2, reparentSpec_not_inSet,
            reparentSpec_inSet_miss cA iA _ p (by rw [hq']; exact hqp)]
        · rw [hmem hj]

/-- Element-wise description of `exit1`: every record is transformed by
`exitXform` (wake sleepers on the caller's parent, re-parent the
caller's children to the root, wake sleepers on the root record if some
child was a zombie), and the caller additionally becomes `ZOMBIE`. -/
theorem exit1_getq (caller init : Nat) (ps : List Proc) (cp : Proc) (ps' : List Proc)
    (hci : caller ≠ init) (hcp : ps[caller]? = some cp)
    (hres : exit1 caller init ps = some ps') :
    ∀ (j : Nat) (p : Proc), ps[j]? = some p →
      ps'[j]? = some (if j = caller
        then { exitXform (addrOf caller) (addrOf init) cp.parent
                 (zombieChild (addrOf caller) ps) p with state := ProcState.ZOMBIE }
        else exitXform (addrOf caller) (addrOf init) cp.parent
               (zombieChild (addrOf caller) ps) p) := by
  intro j p hp
  simp only [exit1, if_neg hci, hcp, Option.some_inj] at hres
  subst hres
  have hp1 : (wakeup1 cp.parent ps)[j]? = some (wakeProc cp.parent p) := by
    rw [getq_wakeup1, hp, Option.map_some']
  have hjlt : j < ps.length := (List.getElem?_eq_some_iff.mp hp).1
  have hn : (wakeup1 cp.parent ps).length = ps.length := length_wakeup1 cp.parent ps
  have hjmem : decide (j ∈ List.range (wakeup1 cp.parent ps).length) = true := by
    rw [hn]
    simp [List.mem_range, hjlt]
  have hrl := reparentList_getq (addrOf caller) (addrOf init)
    (List.range (wakeup1 cp.parent ps).length)
    (List.nodup_range (wakeup1 cp.parent ps).length)
    (wakeup1 cp.parent ps) j (wakeProc cp.parent p) hp1
  rw [hjmem] at hrl
  have hzc : zombieChildOn (addrOf caller)
      (List.range (wakeup1 cp.parent ps).length) (wakeup1 cp.parent ps) =
      zombieChild (addrOf caller) ps := by
    rw [zombieChildOn_range, zombieChild_wakeup1]
  rw [hzc] at hrl
  by_cases hj : j = caller
  · subst hj
    rw [getq_setAt_self, hrl, Option.map_some', if_pos rfl]
    rfl
  · rw [getq_setAt_ne _ _ caller j hj, hrl, if_neg hj]
    rfl

theorem exitXform_parent (cA iA pA : Nat) (zk : Bool) (p : Proc) :
    (exitXform cA iA pA zk p).parent = if p.parent = cA then iA else p.parent := by
  by_cases hp : p.parent = cA
  · rw [exitXform, reparentSpec_inSet_hit cA iA zk (wakeProc pA p)
      (by rw [wakeProc_parent]; exact hp), if_pos hp]
    cases zk with
    | false => rfl
    | true => rw [Bool.cond_true, wakeProc_parent]
  · rw [exitXform, reparentSpec_inSet_miss cA iA zk (wakeProc pA p)
      (by rw [wakeProc_parent]; exact hp), if_neg hp]
    cases zk with
    | false => rw [Bool.cond_false, wakeProc_parent]
    | true => rw [Bool.cond_true, wakeProc_parent, wakeProc_parent]

theorem exitXform_wakes_parent_chan (cA iA pA : Nat) (zk : Bool) (p : Proc)
    (hs : p.state = ProcState.SLEEPING) (hc : p.chan = pA) :
    (exitXform cA iA pA zk p).state = ProcState.RUNNABLE := by
  have hW : wakeProc pA p = { p with state := ProcState.RUNNABLE } := by
    rw [wakeProc, if_pos ⟨hs, hc⟩]
  rw [exitXform, hW]
  by_cases hp : p.parent = cA
  · rw [reparentSpec_inSet_hit cA iA zk _ (by exact hp)]
    cases zk with
    | false => rfl
    | true =>
      rw [Bool.cond_true, wakeProc, if_neg]
      rintro ⟨h1, -⟩
      exact ProcState.noConfusion h1
  · rw [reparentSpec_inSet_miss cA iA zk _ (by exact hp)]
    cases zk with
    | false => rfl
    | true =>
      rw [Bool.cond_true, wakeProc, if_neg]
      rintro ⟨h1, -⟩
      exact ProcState.noConfusion h1

theorem exitXform_wakes_root_chan (cA iA pA : Nat) (p : Proc)
    (hs : p.state = ProcState.SLEEPING) (hc : p.chan = iA) :
    (exitXform cA iA pA true p).state = ProcState.RUNNABLE := by
  by_cases hpa : p.chan = pA
  · exact exitXform_wakes_parent_chan cA iA pA true p hs hpa
  · have hW : wakeProc pA p = p := by
      rw [wakeProc, if_neg]
      rintro ⟨-, h2⟩
      exact hpa h2
    rw [exitXform, hW]
    by_cases hp : p.parent = cA
    · rw [reparentSpec_inSet_hit cA iA true p hp, Bool.cond_true,
        wakeProc, if_pos (by exact ⟨hs, hc⟩)]
    · rw [reparentSpec_inSet_miss cA iA true p hp, Bool.cond_true,
        wakeProc, if_pos ⟨hs, hc⟩]

/-- Claim C5: for every `exit` by a non-root process: every record whose
parent was the caller is re-parented to the root record; the root
record, if `Sleeping` on its own identity, is `Runnable` afterwards
whenever some re-parented record was already a `Zombie`; any record
(the caller's parent in particular) `Sleeping` on the caller's parent
channel is woken; the caller ends `Zombie`; and the call never returns
to the caller — the scheduler never again selects the caller (the C
code jumps into `sched()` after the `ZOMBIE` store and would `panic` if
that call ever returned). -/
theorem exit_reparents_wakes_zombifies (caller init : Nat) (ps : List Proc)
    (cp : Proc) (ps' : List Proc)
    (hci : caller ≠ init) (hcp : ps[caller]? = some cp)
    (hres : exit1 caller init ps = some ps') :
    (∀ (j : Nat) (q : Proc), ps[j]? = some q → q.parent = addrOf caller →
       ∃ q', ps'[j]? = some q' ∧ q'.parent = addrOf init) ∧
    (zombieChild (addrOf caller) ps = true →
       ∀ (ip : Proc), ps[init]? = some ip → ip.state = ProcState.SLEEPING →
         ip.chan = addrOf init →
         ∃ ip', ps'[init]? = some ip' ∧ ip'.state = ProcState.RUNNABLE) ∧
    (∀ (j : Nat) (q : Proc), ps[j]? = some q → j ≠ caller →
       q.state = ProcState.SLEEPING → q.chan = cp.parent →
       ∃ q', ps'[j]? = some q' ∧ q'.state = ProcState.RUNNABLE) ∧
    (∃ c', ps'[caller]? = some c' ∧ c'.state = ProcState.ZOMBIE) ∧
    (∀ (w : Int), schedSelect ps' w ≠ some caller) := by
  have hchar := exit1_getq caller init ps cp ps' hci hcp hres
  refine ⟨?_, ?_, ?_, ?_, ?_⟩
  · intro j q hq hqp
    refine ⟨_, hchar j q hq, ?_⟩
    by_cases hj : j = caller
    · rw [if_pos hj]
      show (exitXform (addrOf caller) (addrOf init) cp.parent
        (zombieChild (addrOf caller) ps) q).parent = addrOf init
      rw [exitXform_parent, if_pos hqp]
    · rw [if_neg hj, exitXform_parent, if_pos hqp]
  · intro hzk ip hip hs hc
    refine ⟨_, hchar init ip hip, ?_⟩
    rw [if_neg (Ne.symm hci)]
    rw [hzk]
    exact exitXform_wakes_root_chan (addrOf caller) (addrOf init) cp.parent ip hs hc
  · intro j q hq hj hs hc
    refine ⟨_, hchar j q hq, ?_⟩
    rw [if_neg hj]
    exact exitXform_wakes_parent_chan (addrOf caller) (addrOf init) cp.parent
      (zombieChild (addrOf caller) ps) q hs hc
  · refine ⟨_, hchar caller cp hcp, ?_⟩
    rw [if_pos rfl]
  · intro w hw
    obtain ⟨r, hr, hrr, -, -⟩ := schedScan_some ps' 0 w caller hw
    rw [hchar caller cp hcp, if_pos rfl, Option.some_inj] at hr
    rw [← hr] at hrr
    exact ProcState.noConfusion hrr

/-- Witness for C5 on a concrete three-record table: slot 0 (pid 2,
child of the root) exits with a zombie child (slot 2, pid 3) while the
root record (slot 1, pid 1) is sleeping on its own identity: the child
is re-parented to the root (parent address 2), the root is woken, the
caller is a zombie and is never again selected by the scheduler. -/
theorem exit_reparents_wakes_zombifies_witness :
    exit1 0 1 [{ pid := 2, state := ProcState.RUNNING, parent := 2 },
               { pid := 1, state := ProcState.SLEEPING, chan := 2 },
               { pid := 3, state := ProcState.ZOMBIE, parent := 1 }] =
      some [{ pid := 2, state := ProcState.ZOMBIE, parent := 2 },
            { pid := 1, state := ProcState.RUNNABLE, chan := 2 },
            { pid := 3, state := ProcState.ZOMBIE, parent := 2 }] ∧
    (∀ (w : Int), schedSelect
      [{ pid := 2, state := ProcState.ZOMBIE, parent := 2 },
       { pid := 1, state := ProcState.RUNNABLE, chan := 2 },
       { pid := 3, state := ProcState.ZOMBIE, parent := 2 }] w ≠ some 0) := by
  have h := exit_reparents_wakes_zombifies 0 1
    [{ pid := 2, state := ProcState.RUNNING, parent := 2 },
     { pid := 1, state := ProcState.SLEEPING, chan := 2 },
     { pid := 3, state := ProcState.ZOMBIE, parent := 1 }]
    { pid := 2, state := ProcState.RUNNING, parent := 2 }
    [{ pid := 2, state := ProcState.ZOMBIE, parent := 2 },
     { pid := 1, state := ProcState.RUNNABLE, chan := 2 },
     { pid := 3, state := ProcState.ZOMBIE, parent := 2 }]
    (by decide) (by simp) (by decide)
  exact ⟨by decide, h.2.2.2.2⟩

end XV6
